import Mathlib

/-!
Shallow embedding of the `shorter` URL-shortener core:

* `NamespaceLRU` models `infrastructure/cache/lru.go`: a namespaced LRU
  cache.  The Go code keeps a doubly linked access-order list (`queue`,
  front = most recently used) plus a hash index `items` from the composite
  key `namespace + ":" + key` to the list element.  Since the map is kept in
  lockstep with the list (every insert, overwrite, move and delete updates
  both), the observable state is exactly the list of entries in recency
  order; we model it as a `List` and resolve map lookups by scanning for
  the first entry whose composite key matches.

* `Repo` models the SQLite repository (`infrastructure/db/sqlite.go`):
  the `url_models` table is a list of rows, `gorm` raw queries become list
  operations (`COUNT` = filter length, `LIMIT 1` = first match, `UPDATE`
  = map over matching rows).

* `Service` models the domain service (`domain/shortener/service.go`).
  Go `*URL` pointers are heap addresses: `SysState.heap` is the list of
  allocated `URL` objects and cache values are addresses, so the aliasing
  between the record a caller holds and the record the cache holds is
  represented faithfully.

* `SysState.log` records every repository invocation, so claims of the
  form "does not invoke the store's FindByShortCode" are statable.

Machine integers: Go `int` is modelled as `Int` (capacity may be zero or
negative, e.g. `strconv.Atoi` of a malformed `CACHE_SIZE` yields 0) and
Go `uint` visit counters as `Nat` (no claim exercises wrap-around).
-/

/-- Entry mirrors `type entry struct { namespace, key string; value interface{} }`
from lru.go.  The Go field `namespace` is a Lean keyword, so it is called
`ns` here. -/
structure Entry (α : Type) where
  ns : String
  key : String
  value : α
deriving DecidableEq

/-- The composite key `namespace + ":" + key` used as the `items` map key
(lru.go line 37). -/
def compositeKey (ns key : String) : String :=
  ns ++ ":" ++ key

/-- The composite key stored for an entry; the map key of an element is
always `entry.namespace + ":" + entry.key` (cf. lru.go lines 37, 142). -/
def Entry.ck (e : Entry α) : String :=
  compositeKey e.ns e.key

/-- NamespaceLRU's observable state: the configured capacity and the
access-order queue, front = most recently used (Go pushes and moves to the
front, evicts from the back). -/
structure NamespaceLRU (α : Type) where
  capacity : Int
  queue : List (Entry α)
deriving DecidableEq

/-- NewNamespaceLRU mirrors the constructor: empty queue, empty index. -/
def NewNamespaceLRU (α : Type) (capacity : Int) : NamespaceLRU α :=
  { capacity := capacity, queue := [] }

/-- Remove the first element satisfying `p` from a list, returning it and
the remaining list.  This is the `items` map lookup combined with the
linked-list unlink: the map resolves the composite key to one element, and
removing that element keeps all others in order. -/
def extractFirst (p : Entry α → Bool) : List (Entry α) → Option (Entry α) × List (Entry α)
  | [] => (none, [])
  | e :: rest =>
    if p e then
      (some e, rest)
    else
      let r := extractFirst p rest
      (r.1, e :: r.2)

/-- Set mirrors `NamespaceLRU.Set` (lru.go lines 32-58): on an existing
composite key, move the element to the front and overwrite only its
`value` field (namespace and key are left as first stored); on a new key,
push a fresh entry to the front and, if the queue length now exceeds the
capacity, evict the back element (`evict`, lines 130-144, removes exactly
the one least-recently-used entry). -/
def NamespaceLRU.Set (c : NamespaceLRU α) (ns key : String) (value : α) : NamespaceLRU α :=
  let ck := compositeKey ns key
  match extractFirst (fun e => e.ck == ck) c.queue with
  | (some e, rest) =>
    { c with queue := { e with value := value } :: rest }
  | (none, _) =>
    let q := Entry.mk ns key value :: c.queue
    if (q.length : Int) > c.capacity then
      { c with queue := q.dropLast }
    else
      { c with queue := q }

/-- Get mirrors `NamespaceLRU.Get` (lru.go lines 61-74): look the composite
key up; on a hit move the element to the front and return its value, on a
miss return nothing.  The Go signature `(interface{}, bool)` is encoded as
`Option α` (`none` = `(nil, false)`). -/
def NamespaceLRU.Get (c : NamespaceLRU α) (ns key : String) : Option α × NamespaceLRU α :=
  let ck := compositeKey ns key
  match extractFirst (fun e => e.ck == ck) c.queue with
  | (some e, rest) => (some e.value, { c with queue := e :: rest })
  | (none, _) => (none, c)

/-- Invalidate mirrors `NamespaceLRU.Invalidate` (lru.go lines 77-86):
remove the entry for the composite key if present, otherwise no-op. -/
def NamespaceLRU.Invalidate (c : NamespaceLRU α) (ns key : String) : NamespaceLRU α :=
  match extractFirst (fun e => e.ck == compositeKey ns key) c.queue with
  | (some _, rest) => { c with queue := rest }
  | (none, _) => c

/-- InvalidateNamespace mirrors `NamespaceLRU.InvalidateNamespace`
(lru.go lines 89-111): it collects every element whose *stored* `namespace`
field equals the argument and removes them from queue and map; removing a
set of elements from a linked list keeps the survivors in order, i.e. the
queue is filtered. -/
def NamespaceLRU.InvalidateNamespace (c : NamespaceLRU α) (ns : String) : NamespaceLRU α :=
  { c with queue := c.queue.filter (fun e => e.ns != ns) }

/-- Clear mirrors `NamespaceLRU.Clear` (lru.go lines 114-120). -/
def NamespaceLRU.Clear (c : NamespaceLRU α) : NamespaceLRU α :=
  { c with queue := [] }

/-- Size mirrors `NamespaceLRU.Size` (lru.go lines 123-127): `queue.Len()`
as a Go `int`. -/
def NamespaceLRU.Size (c : NamespaceLRU α) : Int :=
  (c.queue.length : Int)

/-- Which of the two modes of the single `sync.RWMutex` an operation
acquires: `RLock` = `shared`, `Lock` = `exclusive`. -/
inductive LockKind where
  | shared
  | exclusive
deriving DecidableEq

/-- Lock acquired by `Set` (lru.go line 33: `c.mutex.Lock()`). -/
def NamespaceLRU.setLock : LockKind := .exclusive

/-- Lock acquired by `Get` (lru.go line 62: `c.mutex.RLock()`). -/
def NamespaceLRU.getLock : LockKind := .shared

/-- Lock acquired by `Invalidate` (lru.go line 78: `c.mutex.Lock()`). -/
def NamespaceLRU.invalidateLock : LockKind := .exclusive

/-- Lock acquired by `InvalidateNamespace` (lru.go line 90: `c.mutex.Lock()`). -/
def NamespaceLRU.invalidateNamespaceLock : LockKind := .exclusive

/-- Lock acquired by `Clear` (lru.go line 115: `c.mutex.Lock()`). -/
def NamespaceLRU.clearLock : LockKind := .exclusive

/-- Lock acquired by `Size` (lru.go line 124: `c.mutex.RLock()`). -/
def NamespaceLRU.sizeLock : LockKind := .shared

/-- One cache API call, for stating invariants over arbitrary call
sequences.  `get` is included because `Get` mutates the recency order. -/
inductive CacheOp (α : Type) where
  | set (ns key : String) (value : α)
  | get (ns key : String)
  | invalidate (ns key : String)
  | invalidateNamespace (ns : String)
  | clear

/-- State transition of a single cache call. -/
def NamespaceLRU.applyOp (c : NamespaceLRU α) : CacheOp α → NamespaceLRU α
  | .set ns key v => c.Set ns key v
  | .get ns key => (c.Get ns key).2
  | .invalidate ns key => c.Invalidate ns key
  | .invalidateNamespace ns => c.InvalidateNamespace ns
  | .clear => c.Clear

/-- State after a sequence of cache calls. -/
def NamespaceLRU.applyOps (c : NamespaceLRU α) (ops : List (CacheOp α)) : NamespaceLRU α :=
  ops.foldl NamespaceLRU.applyOp c

deriving instance DecidableEq for Except

/-- URL mirrors the domain model `shortener.URL` (`ID uint`, `LongURL`,
`ShortCode string`, `CreatedAt time.Time`, `Visits uint`).  Timestamps are
abstracted as `Nat`; visit counters are `Nat` (Go `uint`). -/
structure URL where
  ID : Nat
  LongURL : String
  ShortCode : String
  CreatedAt : Nat
  Visits : Nat
deriving DecidableEq

/-- URLModel mirrors the GORM row of table `url_models`
(`ID uint` primary key, `LongURL`, unique `ShortCode`, `CreatedAt`,
`Visits uint`). -/
structure URLModel where
  ID : Nat
  LongURL : String
  ShortCode : String
  CreatedAt : Nat
  Visits : Nat
deriving DecidableEq

/-- One repository invocation, recorded so that claims about which store
operations a service call performs are statable. -/
inductive StoreCall where
  | store (shortCode : String)
  | find (shortCode : String)
  | incr (shortCode : String)
  | update (shortCode : String)
deriving DecidableEq

/-- The composed system state: the SQLite table, the heap of allocated
`*URL` objects (a cache value or a service return value is an address =
index into `heap`, mirroring Go pointer sharing), the shared
`NamespaceLRU`, and the trace of repository invocations. -/
structure SysState where
  store : List URLModel
  heap : List URL
  cache : NamespaceLRU Nat
  log : List StoreCall
deriving DecidableEq

/-- constant.ShortURLNamespace. -/
def ShortURLNamespace : String := "SHORT"

/-- constant.ErrEmptyLongURL. -/
def ErrEmptyLongURL : String := "Long URL cannot be empty"

/-- constant.ErrEmptyShortCode. -/
def ErrEmptyShortCode : String := "Short code cannot be empty"

/-- constant.ErrShortCodeExists. -/
def ErrShortCodeExists : String := "short code already exists"

/-- constant.ErrShortCodeNotFound. -/
def ErrShortCodeNotFound : String := "short code not found"

/-- `SELECT COUNT(*) FROM url_models WHERE short_code = ?`. -/
def countShortCode (store : List URLModel) (shortCode : String) : Nat :=
  (store.filter (fun r => r.ShortCode == shortCode)).length

namespace Repo

/-- Store mirrors `SQLiteRepository.Store`: reject when the short code is
already present (`ErrShortCodeExists`), otherwise insert the row.  The
`id` column is assigned by SQLite's rowid, modelled as row count + 1 (the
Go code never copies it back into the `*URL`, whose `ID` stays 0). -/
def Store (s : SysState) (url : URL) : Except String Unit × SysState :=
  let s := { s with log := s.log ++ [StoreCall.store url.ShortCode] }
  if countShortCode s.store url.ShortCode > 0 then
    (.error ErrShortCodeExists, s)
  else
    let row : URLModel :=
      { ID := s.store.length + 1, LongURL := url.LongURL, ShortCode := url.ShortCode,
        CreatedAt := url.CreatedAt, Visits := url.Visits }
    (.ok (), { s with store := s.store ++ [row] })

/-- FindByShortCode mirrors `SQLiteRepository.FindByShortCode`:
`SELECT ... WHERE short_code = ? LIMIT 1`; absence yields
`ErrShortCodeNotFound`, success allocates a fresh `*URL` built from the
row and returns its address. -/
def FindByShortCode (s : SysState) (shortCode : String) : Except String Nat × SysState :=
  let s := { s with log := s.log ++ [StoreCall.find shortCode] }
  match s.store.find? (fun r => r.ShortCode == shortCode) with
  | none => (.error ErrShortCodeNotFound, s)
  | some r =>
    let url : URL :=
      { ID := r.ID, LongURL := r.LongURL, ShortCode := r.ShortCode,
        CreatedAt := r.CreatedAt, Visits := r.Visits }
    (.ok s.heap.length, { s with heap := s.heap ++ [url] })

/-- IncrementVisits mirrors `SQLiteRepository.IncrementVisits`:
`UPDATE url_models SET visits = visits + 1 WHERE short_code = ?`.  When no
row is affected it only logs a warning and still returns nil; when at
least one row is affected it additionally re-reads the cache and, on a
hit, increments the cached object's `Visits` in place (a heap mutation
through the shared pointer) and `Set`s it back.  A DB fault is outside the
model, so the result is always `ok`. -/
def IncrementVisits (s : SysState) (shortCode : String) : Except String Unit × SysState :=
  let s := { s with log := s.log ++ [StoreCall.incr shortCode] }
  let affected := countShortCode s.store shortCode
  let store' :=
    s.store.map (fun r => if r.ShortCode == shortCode then { r with Visits := r.Visits + 1 } else r)
  let s := { s with store := store' }
  if affected == 0 then
    (.ok (), s)
  else
    let got := s.cache.Get ShortURLNamespace shortCode
    let s := { s with cache := got.2 }
    match got.1 with
    | some addr =>
      match s.heap.get? addr with
      | some url =>
        let s := { s with heap := s.heap.set addr { url with Visits := url.Visits + 1 } }
        (.ok (), { s with cache := s.cache.Set ShortURLNamespace shortCode addr })
      | none => (.ok (), s)
    | none => (.ok (), s)

/-- UpdateLongURL mirrors `SQLiteRepository.UpdateLongURL`: check
existence (`ErrShortCodeNotFound` when absent), then
`UPDATE url_models SET long_url = ? WHERE short_code = ?`; the trailing
`RowsAffected == 0` re-check in the Go code mirrors as a second test of
the same count. -/
def UpdateLongURL (s : SysState) (shortCode newLongURL : String) : Except String Unit × SysState :=
  let s := { s with log := s.log ++ [StoreCall.update shortCode] }
  let cnt := countShortCode s.store shortCode
  if cnt == 0 then
    (.error ErrShortCodeNotFound, s)
  else
    let store' :=
      s.store.map (fun r => if r.ShortCode == shortCode then { r with LongURL := newLongURL } else r)
    let s := { s with store := store' }
    if cnt == 0 then
      (.error ErrShortCodeNotFound, s)
    else
      (.ok (), s)

end Repo

namespace Service

/-- CreateShortURL mirrors `Service.CreateShortURL`: validate the long
URL, pick the custom code or a generated one (`generateShortCode` is
time-driven, so the generated string is a parameter `gen`, as is the
`time.Now()` timestamp `now`), persist via `Repo.Store`, and on success
cache the new `*URL` under `("SHORT", shortCode)` and return its
address. -/
def CreateShortURL (s : SysState) (longURL customShort gen : String) (now : Nat) :
    Except String Nat × SysState :=
  if longURL = "" then
    (.error ErrEmptyLongURL, s)
  else
    let shortCode := if customShort = "" then gen else customShort
    let url : URL :=
      { ID := 0, LongURL := longURL, ShortCode := shortCode, CreatedAt := now, Visits := 0 }
    match Repo.Store s url with
    | (.error e, s) => (.error e, s)
    | (.ok _, s) =>
      let addr := s.heap.length
      let s := { s with heap := s.heap ++ [url] }
      (.ok addr, { s with cache := s.cache.Set ShortURLNamespace shortCode addr })

/-- The part of `Service.GetLongURL` after the cache lookup misses (or the
type assertion fails): query the store, propagate `NotFound`, otherwise
best-effort increment and return the freshly fetched record.  Note: the
Go code does NOT put the fetched record into the cache here. -/
def getLongURLMiss (s : SysState) (shortCode : String) : Except String Nat × SysState :=
  match Repo.FindByShortCode s shortCode with
  | (.error e, s) => (.error e, s)
  | (.ok addr, s) =>
    let r := Repo.IncrementVisits s shortCode
    (.ok addr, r.2)

/-- GetLongURL mirrors `Service.GetLongURL`: validate, try the cache
(`Get` also refreshes recency); on a hit whose value is a `*URL`
(here: whose address is allocated), best-effort increment and return the
cached pointer; otherwise fall through to the store path. -/
def GetLongURL (s : SysState) (shortCode : String) : Except String Nat × SysState :=
  if shortCode = "" then
    (.error ErrEmptyShortCode, s)
  else
    let got := s.cache.Get ShortURLNamespace shortCode
    let s := { s with cache := got.2 }
    match got.1 with
    | some addr =>
      match s.heap.get? addr with
      | some _ =>
        let r := Repo.IncrementVisits s shortCode
        (.ok addr, r.2)
      | none => getLongURLMiss s shortCode
    | none => getLongURLMiss s shortCode

/-- UpdateLongURL mirrors `Service.UpdateLongURL`: validate both inputs,
confirm existence via the store (`FindByShortCode`, which allocates the
record that will be returned), update the store, then mutate the
record's `LongURL` through the pointer and overwrite the cache entry at
`("SHORT", shortCode)`. -/
def UpdateLongURL (s : SysState) (shortCode newLongURL : String) : Except String Nat × SysState :=
  if shortCode = "" then
    (.error ErrEmptyShortCode, s)
  else if newLongURL = "" then
    (.error ErrEmptyLongURL, s)
  else
    match Repo.FindByShortCode s shortCode with
    | (.error e, s) => (.error e, s)
    | (.ok addr, s) =>
      match Repo.UpdateLongURL s shortCode newLongURL with
      | (.error e, s) => (.error e, s)
      | (.ok _, s) =>
        let s :=
          match s.heap.get? addr with
          | some url => { s with heap := s.heap.set addr { url with LongURL := newLongURL } }
          | none => s
        (.ok addr, { s with cache := s.cache.Set ShortURLNamespace shortCode addr })

end Service

/-- A string without the separator character of `compositeKey`. -/
def colonFree (x : String) : Prop := ':' ∉ x.data

instance (x : String) : Decidable (colonFree x) :=
  inferInstanceAs (Decidable (':' ∉ x.data))

/-! Concrete example states used to instantiate the general theorems. -/

/-- A store row for short code `abc123`. -/
def exRow : URLModel :=
  { ID := 1, LongURL := "https://example.com", ShortCode := "abc123", CreatedAt := 0, Visits := 0 }

/-- A system state whose store holds `exRow`, with an empty cache. -/
def exState : SysState :=
  { store := [exRow], heap := [], cache := NewNamespaceLRU Nat 10, log := [] }

/-- The `*URL` object cached in `exHitState`, with 5 recorded visits. -/
def exCachedURL : URL :=
  { ID := 1, LongURL := "https://example.com", ShortCode := "abc123", CreatedAt := 0, Visits := 5 }

/-- A system state where `abc123` is in the store and cached at heap
address 0 with a visit-count snapshot of 5. -/
def exHitState : SysState :=
  { store := [exRow], heap := [exCachedURL],
    cache := { capacity := 10, queue := [Entry.mk "SHORT" "abc123" 0] }, log := [] }

/-- A system state with an empty store. -/
def exEmptyState : SysState :=
  { store := [], heap := [], cache := NewNamespaceLRU Nat 10, log := [] }

/-- A cache holding an entry stored under namespace `a:b` (with a colon)
and one under namespace `a`. -/
def exAliasCache : NamespaceLRU Nat :=
  { capacity := 10, queue := [Entry.mk "a:b" "c" 7, Entry.mk "a" "x" 1] }

/-- A cache populated under the two colon-free namespaces `a` and `b`. -/
def exIsoCache : NamespaceLRU Nat :=
  { capacity := 10, queue := [Entry.mk "a" "k1" 1, Entry.mk "b" "k2" 2] }

/-- A two-entry cache under the `SHORT` namespace. -/
def exPairCache : NamespaceLRU Nat :=
  { capacity := 2, queue := [Entry.mk "SHORT" "a" 1, Entry.mk "SHORT" "b" 2] }

/-! Helper lemmas about `extractFirst`. -/

theorem extractFirst_nil (p : Entry α → Bool) : extractFirst p [] = (none, []) :=
  rfl

theorem extractFirst_cons_pos {p : Entry α → Bool} {e : Entry α} (l : List (Entry α))
    (h : p e = true) : extractFirst p (e :: l) = (some e, l) := by
  simp [extractFirst, h]

theorem extractFirst_cons_neg {p : Entry α → Bool} {e : Entry α} (l : List (Entry α))
    (h : p e = false) :
    extractFirst p (e :: l) = ((extractFirst p l).1, e :: (extractFirst p l).2) := by
  simp [extractFirst, h]

theorem extractFirst_eq_none_iff {p : Entry α → Bool} {l : List (Entry α)} :
    (extractFirst p l).1 = none ↔ ∀ e ∈ l, p e = false := by
  induction l with
  | nil => simp [extractFirst]
  | cons e rest ih =>
    by_cases h : p e
    · simp [extractFirst_cons_pos rest h, h]
    · simp only [Bool.not_eq_true] at h
      simp [extractFirst_cons_neg rest h, ih, h]

theorem extractFirst_snd_of_none {p : Entry α → Bool} {l : List (Entry α)}
    (h : (extractFirst p l).1 = none) : (extractFirst p l).2 = l := by
  induction l with
  | nil => rfl
  | cons e rest ih =>
    by_cases he : p e
    · simp [extractFirst_cons_pos rest he] at h
    · simp only [Bool.not_eq_true] at he
      rw [extractFirst_cons_neg rest he] at h ⊢
      simp [ih h]

theorem extractFirst_some {p : Entry α → Bool} {l : List (Entry α)} {e : Entry α}
    (h : (extractFirst p l).1 = some e) :
    p e = true ∧ ∃ l1 l2, l = l1 ++ e :: l2 ∧ (extractFirst p l).2 = l1 ++ l2 ∧
      ∀ x ∈ l1, p x = false := by
  induction l with
  | nil => simp [extractFirst] at h
  | cons a rest ih =>
    by_cases ha : p a
    · rw [extractFirst_cons_pos rest ha] at h ⊢
      cases h
      exact ⟨ha, [], rest, by simp⟩
    · simp only [Bool.not_eq_true] at ha
      rw [extractFirst_cons_neg rest ha] at h ⊢
      obtain ⟨hpe, l1, l2, hl, hsnd, hl1⟩ := ih h
      refine ⟨hpe, a :: l1, l2, by simp [hl], by simp [hsnd], ?_⟩
      intro x hx
      rcases List.mem_cons.mp hx with rfl | hx
      · exact ha
      · exact hl1 x hx

theorem extractFirst_length_of_some {p : Entry α → Bool} {l : List (Entry α)} {e : Entry α}
    (h : (extractFirst p l).1 = some e) :
    l.length = (extractFirst p l).2.length + 1 := by
  obtain ⟨-, l1, l2, hl, hsnd, -⟩ := extractFirst_some h
  subst hl
  simp [hsnd]
  omega

theorem extractFirst_fst_filter {p q : Entry α → Bool} {l : List (Entry α)}
    (h : ∀ e ∈ l, p e = true → q e = true) :
    (extractFirst p (l.filter q)).1 = (extractFirst p l).1 := by
  induction l with
  | nil => rfl
  | cons a rest ih =>
    have hrest : ∀ e ∈ rest, p e = true → q e = true :=
      fun e he => h e (List.mem_cons_of_mem a he)
    by_cases hq : q a
    · rw [List.filter_cons_of_pos hq]
      by_cases hp : p a
      · rw [extractFirst_cons_pos _ hp, extractFirst_cons_pos _ hp]
      · simp only [Bool.not_eq_true] at hp
        rw [extractFirst_cons_neg _ hp, extractFirst_cons_neg _ hp]
        exact ih hrest
    · simp only [Bool.not_eq_true] at hq
      have hp : p a = false := by
        by_contra hc
        simp only [Bool.not_eq_false] at hc
        have := h a (List.mem_cons_self a rest) hc
        rw [hq] at this
        exact Bool.false_ne_true this
      rw [List.filter_cons_of_neg (by simp [hq]), extractFirst_cons_neg _ hp]
      exact ih hrest

/-! Characterizations of the cache operations in terms of `extractFirst`. -/

theorem NamespaceLRU.Get_eq_of_extract_some {c : NamespaceLRU α} {ns key : String}
    {e : Entry α} {rest : List (Entry α)}
    (h : extractFirst (fun x => x.ck == compositeKey ns key) c.queue = (some e, rest)) :
    c.Get ns key = (some e.value, { c with queue := e :: rest }) := by
  simp [NamespaceLRU.Get, h]

theorem NamespaceLRU.Get_eq_of_extract_none {c : NamespaceLRU α} {ns key : String}
    {rest : List (Entry α)}
    (h : extractFirst (fun x => x.ck == compositeKey ns key) c.queue = (none, rest)) :
    c.Get ns key = (none, c) := by
  simp [NamespaceLRU.Get, h]

theorem NamespaceLRU.Get_of_fst_none {c : NamespaceLRU α} {ns key : String}
    (h : (c.Get ns key).1 = none) : c.Get ns key = (none, c) := by
  rcases hq : extractFirst (fun x => x.ck == compositeKey ns key) c.queue with ⟨fst, rest⟩
  cases fst with
  | some e => rw [NamespaceLRU.Get_eq_of_extract_some hq] at h; simp at h
  | none => exact NamespaceLRU.Get_eq_of_extract_none hq

theorem NamespaceLRU.Set_eq_of_extract_some {c : NamespaceLRU α} {ns key : String}
    {e : Entry α} {rest : List (Entry α)} (v : α)
    (h : extractFirst (fun x => x.ck == compositeKey ns key) c.queue = (some e, rest)) :
    c.Set ns key v = { c with queue := { e with value := v } :: rest } := by
  simp [NamespaceLRU.Set, h]

theorem NamespaceLRU.Set_eq_of_extract_none_evict {c : NamespaceLRU α} {ns key : String}
    {rest : List (Entry α)} (v : α)
    (h : extractFirst (fun x => x.ck == compositeKey ns key) c.queue = (none, rest))
    (hover : ((c.queue.length + 1 : Nat) : Int) > c.capacity) :
    c.Set ns key v = { c with queue := (Entry.mk ns key v :: c.queue).dropLast } := by
  simp only [NamespaceLRU.Set, h]
  rw [if_pos (by simpa using hover)]

theorem NamespaceLRU.Set_eq_of_extract_none_fits {c : NamespaceLRU α} {ns key : String}
    {rest : List (Entry α)} (v : α)
    (h : extractFirst (fun x => x.ck == compositeKey ns key) c.queue = (none, rest))
    (hfits : ¬ ((c.queue.length + 1 : Nat) : Int) > c.capacity) :
    c.Set ns key v = { c with queue := Entry.mk ns key v :: c.queue } := by
  simp only [NamespaceLRU.Set, h]
  rw [if_neg (by simpa using hfits)]

/-- The entry cached by a fresh-key `Set` has the given namespace, key and
value; the composite key stored for it is `compositeKey ns key`. -/
theorem Entry.ck_mk (ns key : String) (v : α) :
    (Entry.mk ns key v).ck = compositeKey ns key :=
  rfl

/-- Overwriting only the value leaves the composite key unchanged. -/
theorem Entry.ck_set_value (e : Entry α) (v : α) :
    ({ e with value := v } : Entry α).ck = e.ck :=
  rfl

/-- A `Get` right after a `Set` of an aliasing composite key finds the
just-stored value at the front and leaves the state unchanged (the front
element "moves" to the front), provided the capacity is at least 1 so that
the fresh insert is not itself evicted. -/
theorem NamespaceLRU.Get_after_Set {c : NamespaceLRU α} {ns key ns' key' : String} {v : α}
    (hcap : 1 ≤ c.capacity) (hck : compositeKey ns key = compositeKey ns' key') :
    (c.Set ns key v).Get ns' key' = (some v, c.Set ns key v) := by
  rcases hq : extractFirst (fun x => x.ck == compositeKey ns key) c.queue with ⟨fst, rest⟩
  cases fst with
  | some e =>
    rw [NamespaceLRU.Set_eq_of_extract_some v hq]
    have hpe : (fun x : Entry α => x.ck == compositeKey ns key) e = true :=
      (extractFirst_some (by rw [hq])).1
    have hfront : ({ e with value := v } : Entry α).ck == compositeKey ns' key' := by
      rw [Entry.ck_set_value, ← hck]
      exact hpe
    exact NamespaceLRU.Get_eq_of_extract_some
      (c := { c with queue := { e with value := v } :: rest })
      (extractFirst_cons_pos rest hfront)
  | none =>
    by_cases hover : ((c.queue.length + 1 : Nat) : Int) > c.capacity
    · rw [NamespaceLRU.Set_eq_of_extract_none_evict v hq hover]
      have hne : c.queue ≠ [] := by
        intro hnil
        rw [hnil] at hover
        simp at hover
        omega
      rw [List.dropLast_cons_of_ne_nil hne]
      have hfront : (Entry.mk ns key v).ck == compositeKey ns' key' := by
        rw [Entry.ck_mk, hck]
        exact beq_self_eq_true _
      exact NamespaceLRU.Get_eq_of_extract_some
        (c := { c with queue := Entry.mk ns key v :: c.queue.dropLast })
        (extractFirst_cons_pos _ hfront)
    · rw [NamespaceLRU.Set_eq_of_extract_none_fits v hq hover]
      have hfront : (Entry.mk ns key v).ck == compositeKey ns' key' := by
        rw [Entry.ck_mk, hck]
        exact beq_self_eq_true _
      exact NamespaceLRU.Get_eq_of_extract_some
        (c := { c with queue := Entry.mk ns key v :: c.queue })
        (extractFirst_cons_pos _ hfront)

/-- A hit `Get` is idempotent: the matched entry is now at the front, so
repeating the `Get` finds it again and changes nothing. -/
theorem NamespaceLRU.Get_idem {c c' : NamespaceLRU α} {ns key : String} {a : α}
    (h : c.Get ns key = (some a, c')) : c'.Get ns key = (some a, c') := by
  rcases hq : extractFirst (fun x => x.ck == compositeKey ns key) c.queue with ⟨fst, rest⟩
  cases fst with
  | some e =>
    rw [NamespaceLRU.Get_eq_of_extract_some hq] at h
    obtain ⟨hv, hc⟩ := Prod.mk.injEq .. ▸ h
    have hpe : (fun x : Entry α => x.ck == compositeKey ns key) e = true :=
      (extractFirst_some (by rw [hq])).1
    cases hv
    rw [← hc]
    rw [NamespaceLRU.Get_eq_of_extract_some
      (c := { c with queue := e :: rest }) (extractFirst_cons_pos rest hpe)]
  | none =>
    rw [NamespaceLRU.Get_eq_of_extract_none hq] at h
    exact absurd (congrArg Prod.fst h) (by simp)

/-! Size and capacity facts used for the capacity invariant. -/

theorem NamespaceLRU.Set_capacity (c : NamespaceLRU α) (ns key : String) (v : α) :
    (c.Set ns key v).capacity = c.capacity := by
  rcases hq : extractFirst (fun x => x.ck == compositeKey ns key) c.queue with ⟨fst, rest⟩
  cases fst with
  | some e => rw [NamespaceLRU.Set_eq_of_extract_some v hq]
  | none =>
    by_cases hover : ((c.queue.length + 1 : Nat) : Int) > c.capacity
    · rw [NamespaceLRU.Set_eq_of_extract_none_evict v hq hover]
    · rw [NamespaceLRU.Set_eq_of_extract_none_fits v hq hover]

theorem NamespaceLRU.Get_snd_capacity (c : NamespaceLRU α) (ns key : String) :
    ((c.Get ns key).2).capacity = c.capacity := by
  rcases hq : extractFirst (fun x => x.ck == compositeKey ns key) c.queue with ⟨fst, rest⟩
  cases fst with
  | some e => rw [NamespaceLRU.Get_eq_of_extract_some hq]
  | none => rw [NamespaceLRU.Get_eq_of_extract_none hq]

theorem NamespaceLRU.Invalidate_capacity (c : NamespaceLRU α) (ns key : String) :
    (c.Invalidate ns key).capacity = c.capacity := by
  rcases hq : extractFirst (fun x => x.ck == compositeKey ns key) c.queue with ⟨fst, rest⟩
  cases fst <;> simp [NamespaceLRU.Invalidate, hq]

theorem NamespaceLRU.applyOp_capacity (c : NamespaceLRU α) (op : CacheOp α) :
    (c.applyOp op).capacity = c.capacity := by
  cases op with
  | set ns key v => exact c.Set_capacity ns key v
  | get ns key => exact c.Get_snd_capacity ns key
  | invalidate ns key => exact c.Invalidate_capacity ns key
  | invalidateNamespace ns => rfl
  | clear => rfl

theorem NamespaceLRU.Set_size_le {c : NamespaceLRU α} {ns key : String} {v : α}
    (hcap : 1 ≤ c.capacity) (h : c.Size ≤ c.capacity) :
    (c.Set ns key v).Size ≤ c.capacity := by
  rcases hq : extractFirst (fun x => x.ck == compositeKey ns key) c.queue with ⟨fst, rest⟩
  cases fst with
  | some e =>
    rw [NamespaceLRU.Set_eq_of_extract_some v hq]
    have hlen := extractFirst_length_of_some (by rw [hq] : (extractFirst (fun x => x.ck == compositeKey ns key) c.queue).1 = some e)
    rw [hq] at hlen
    simp only [NamespaceLRU.Size, List.length_cons] at h ⊢
    simp only at hlen
    omega
  | none =>
    by_cases hover : ((c.queue.length + 1 : Nat) : Int) > c.capacity
    · rw [NamespaceLRU.Set_eq_of_extract_none_evict v hq hover]
      simp only [NamespaceLRU.Size, List.length_dropLast, List.length_cons] at h ⊢
      omega
    · rw [NamespaceLRU.Set_eq_of_extract_none_fits v hq hover]
      simp only [NamespaceLRU.Size, List.length_cons] at h ⊢
      omega

theorem NamespaceLRU.Get_snd_size (c : NamespaceLRU α) (ns key : String) :
    ((c.Get ns key).2).Size = c.Size := by
  rcases hq : extractFirst (fun x => x.ck == compositeKey ns key) c.queue with ⟨fst, rest⟩
  cases fst with
  | some e =>
    rw [NamespaceLRU.Get_eq_of_extract_some hq]
    have hlen := extractFirst_length_of_some (by rw [hq] : (extractFirst (fun x => x.ck == compositeKey ns key) c.queue).1 = some e)
    rw [hq] at hlen
    simp only [NamespaceLRU.Size, List.length_cons]
    simp only at hlen
    omega
  | none => rw [NamespaceLRU.Get_eq_of_extract_none hq]

theorem NamespaceLRU.Invalidate_size_le (c : NamespaceLRU α) (ns key : String) :
    (c.Invalidate ns key).Size ≤ c.Size := by
  rcases hq : extractFirst (fun x => x.ck == compositeKey ns key) c.queue with ⟨fst, rest⟩
  unfold NamespaceLRU.Invalidate
  rw [hq]
  cases fst with
  | some e =>
    have hlen := extractFirst_length_of_some (by rw [hq] : (extractFirst (fun x => x.ck == compositeKey ns key) c.queue).1 = some e)
    rw [hq] at hlen
    simp only [NamespaceLRU.Size]
    simp only at hlen
    omega
  | none => simp [NamespaceLRU.Size]

theorem NamespaceLRU.InvalidateNamespace_size_le (c : NamespaceLRU α) (ns : String) :
    (c.InvalidateNamespace ns).Size ≤ c.Size := by
  simp only [NamespaceLRU.InvalidateNamespace, NamespaceLRU.Size]
  exact_mod_cast List.length_filter_le _ _

theorem NamespaceLRU.applyOp_size_le {c : NamespaceLRU α} {op : CacheOp α}
    (hcap : 1 ≤ c.capacity) (h : c.Size ≤ c.capacity) :
    (c.applyOp op).Size ≤ c.capacity := by
  cases op with
  | set ns key v => exact NamespaceLRU.Set_size_le hcap h
  | get ns key => rw [NamespaceLRU.applyOp, NamespaceLRU.Get_snd_size]; exact h
  | invalidate ns key =>
    exact le_trans (c.Invalidate_size_le ns key) h
  | invalidateNamespace ns =>
    exact le_trans (c.InvalidateNamespace_size_le ns) h
  | clear =>
    simp only [NamespaceLRU.applyOp, NamespaceLRU.Clear, NamespaceLRU.Size, List.length_nil]
    omega

theorem NamespaceLRU.applyOps_invariant {c : NamespaceLRU α} {ops : List (CacheOp α)}
    (hcap : 1 ≤ c.capacity) (h : c.Size ≤ c.capacity) :
    (c.applyOps ops).capacity = c.capacity ∧ (c.applyOps ops).Size ≤ c.capacity := by
  induction ops generalizing c with
  | nil => exact ⟨rfl, h⟩
  | cons op ops ih =>
    have hstep : (c.applyOp op).Size ≤ c.capacity := NamespaceLRU.applyOp_size_le hcap h
    have hc := c.applyOp_capacity op
    have := ih (c := c.applyOp op) (by omega) (by rw [hc]; exact hstep)
    rw [NamespaceLRU.applyOps] at this ⊢
    simp only [List.foldl_cons]
    exact ⟨by rw [this.1, hc], by rw [← hc]; exact this.2⟩

/-! Colon-free strings: when neither namespace contains a colon, the
composite key determines the namespace/key pair uniquely. -/

theorem append_colon_inj {a b x y : List Char} (ha : ':' ∉ a) (hb : ':' ∉ b)
    (h : a ++ ':' :: x = b ++ ':' :: y) : a = b ∧ x = y := by
  induction a generalizing b with
  | nil =>
    cases b with
    | nil => simpa using h
    | cons d b' =>
      simp only [List.nil_append, List.cons_append, List.cons.injEq] at h
      exact absurd (h.1 ▸ List.mem_cons_self d b') hb
  | cons c a' ih =>
    cases b with
    | nil =>
      simp only [List.cons_append, List.nil_append, List.cons.injEq] at h
      exact absurd (h.1 ▸ List.mem_cons_self c a') ha
    | cons d b' =>
      simp only [List.cons_append, List.cons.injEq] at h
      have ha' : ':' ∉ a' := fun hm => ha (List.mem_cons_of_mem c hm)
      have hb' : ':' ∉ b' := fun hm => hb (List.mem_cons_of_mem d hm)
      obtain ⟨rfl, heq⟩ := h
      obtain ⟨rfl, rfl⟩ := ih ha' hb' heq
      exact ⟨rfl, rfl⟩

theorem compositeKey_data (ns key : String) :
    (compositeKey ns key).data = ns.data ++ ':' :: key.data := by
  simp [compositeKey, String.data_append]

theorem compositeKey_inj {ns1 k1 ns2 k2 : String} (h1 : colonFree ns1) (h2 : colonFree ns2)
    (h : compositeKey ns1 k1 = compositeKey ns2 k2) : ns1 = ns2 ∧ k1 = k2 := by
  have hd := congrArg String.data h
  rw [compositeKey_data, compositeKey_data] at hd
  obtain ⟨hns, hk⟩ := append_colon_inj h1 h2 hd
  exact ⟨String.ext hns, String.ext hk⟩

/-! Store-side helper lemmas. -/

theorem countShortCode_map {f : URLModel → URLModel}
    (hf : ∀ r, (f r).ShortCode = r.ShortCode) (l : List URLModel) (code : String) :
    countShortCode (l.map f) code = countShortCode l code := by
  induction l with
  | nil => rfl
  | cons r rest ih =>
    simp only [countShortCode, List.map_cons, List.filter_cons] at ih ⊢
    rw [hf r]
    by_cases h : r.ShortCode == code <;> simp [h, ih]

theorem find?_shortCode_map {f : URLModel → URLModel}
    (hf : ∀ r, (f r).ShortCode = r.ShortCode) (l : List URLModel) (code : String) :
    (l.map f).find? (fun r => r.ShortCode == code)
      = (l.find? (fun r => r.ShortCode == code)).map f := by
  induction l with
  | nil => rfl
  | cons r rest ih =>
    simp only [List.map_cons, List.find?_cons]
    rw [hf r]
    by_cases h : r.ShortCode == code <;> simp [h, ih]

theorem countShortCode_pos_of_find? {l : List URLModel} {code : String} {r : URLModel}
    (h : l.find? (fun x => x.ShortCode == code) = some r) :
    0 < countShortCode l code := by
  have hm : r ∈ l := List.mem_of_find?_eq_some h
  have hp := List.find?_some h
  have hmem : r ∈ l.filter (fun x => x.ShortCode == code) := List.mem_filter.mpr ⟨hm, hp⟩
  simpa [countShortCode] using List.length_pos.mpr (List.ne_nil_of_mem hmem)

theorem find?_isSome_of_countShortCode_pos {l : List URLModel} {code : String}
    (h : 0 < countShortCode l code) :
    (l.find? (fun x => x.ShortCode == code)).isSome := by
  rw [List.find?_isSome]
  have hne : l.filter (fun x => x.ShortCode == code) ≠ [] := by
    simp only [countShortCode] at h
    exact List.length_pos.mp h
  obtain ⟨x, hx⟩ := List.exists_mem_of_ne_nil _ hne
  obtain ⟨hxl, hpx⟩ := List.mem_filter.mp hx
  exact ⟨x, hxl, hpx⟩

/-! Repository-level characterizations. -/

theorem set_append_singleton_length {β : Type} (l : List β) (a b : β) :
    (l ++ [a]).set l.length b = l ++ [b] := by
  induction l with
  | nil => rfl
  | cons x xs ih => simp [ih]

theorem Repo.IncrementVisits_of_cache_miss {s : SysState} {code : String}
    (hmiss : (s.cache.Get ShortURLNamespace code).1 = none) :
    Repo.IncrementVisits s code =
      (.ok (), { s with
        store := s.store.map
          (fun r => if r.ShortCode == code then { r with Visits := r.Visits + 1 } else r),
        log := s.log ++ [StoreCall.incr code] }) := by
  unfold Repo.IncrementVisits
  by_cases hcnt : countShortCode s.store code == 0
  · simp [hcnt]
  · simp only [hcnt, if_false, Bool.false_eq_true]
    rw [NamespaceLRU.Get_of_fst_none hmiss]

theorem Repo.IncrementVisits_of_cache_hit {s : SysState} {code : String} {addr : Nat}
    {c' : NamespaceLRU Nat} {u : URL}
    (hhit : s.cache.Get ShortURLNamespace code = (some addr, c'))
    (hheap : s.heap.get? addr = some u)
    (hcnt : countShortCode s.store code ≠ 0) :
    Repo.IncrementVisits s code =
      (.ok (),
        { store := (s.store.map
              (fun r => if r.ShortCode == code then { r with Visits := r.Visits + 1 } else r)),
          heap := s.heap.set addr { u with Visits := u.Visits + 1 },
          cache := c'.Set ShortURLNamespace code addr,
          log := s.log ++ [StoreCall.incr code] }) := by
  unfold Repo.IncrementVisits
  have hcnt' : (countShortCode s.store code == 0) = false := by
    simpa using hcnt
  simp only [hcnt', if_false, Bool.false_eq_true]
  rw [hhit]
  simp only [hheap]

theorem Repo.FindByShortCode_of_found {s : SysState} {code : String} {r : URLModel}
    (hfind : s.store.find? (fun x => x.ShortCode == code) = some r) :
    Repo.FindByShortCode s code =
      (.ok s.heap.length,
       { s with heap := s.heap ++ [URL.mk r.ID r.LongURL r.ShortCode r.CreatedAt r.Visits],
                log := s.log ++ [StoreCall.find code] }) := by
  unfold Repo.FindByShortCode
  simp only [hfind]

theorem Repo.FindByShortCode_of_missing {s : SysState} {code : String}
    (hfind : s.store.find? (fun x => x.ShortCode == code) = none) :
    Repo.FindByShortCode s code =
      (.error ErrShortCodeNotFound, { s with log := s.log ++ [StoreCall.find code] }) := by
  unfold Repo.FindByShortCode
  simp only [hfind]

theorem Repo.UpdateLongURL_of_found {s : SysState} {code : String} (newURL : String)
    (hcnt : countShortCode s.store code ≠ 0) :
    Repo.UpdateLongURL s code newURL =
      (.ok (), { s with
        store := s.store.map
          (fun r => if r.ShortCode == code then { r with LongURL := newURL } else r),
        log := s.log ++ [StoreCall.update code] }) := by
  unfold Repo.UpdateLongURL
  have hcnt' : (countShortCode s.store code == 0) = false := by
    simpa using hcnt
  simp [hcnt']

/-! Service-level characterizations. -/

theorem Service.GetLongURL_hit_incr {s : SysState} {code : String} {addr : Nat}
    {c' : NamespaceLRU Nat} {u : URL}
    (hc : code ≠ "")
    (hhit : s.cache.Get ShortURLNamespace code = (some addr, c'))
    (hheap : s.heap.get? addr = some u)
    (hcnt : countShortCode s.store code ≠ 0) :
    Service.GetLongURL s code =
      (.ok addr,
        { store := (s.store.map
              (fun r => if r.ShortCode == code then { r with Visits := r.Visits + 1 } else r)),
          heap := s.heap.set addr { u with Visits := u.Visits + 1 },
          cache := c'.Set ShortURLNamespace code addr,
          log := s.log ++ [StoreCall.incr code] }) := by
  unfold Service.GetLongURL
  rw [if_neg hc]
  simp only [hhit, hheap]
  rw [Repo.IncrementVisits_of_cache_hit (s := { s with cache := c' })
    (NamespaceLRU.Get_idem hhit) hheap hcnt]

theorem Service.GetLongURL_hit_nocount {s : SysState} {code : String} {addr : Nat}
    {c' : NamespaceLRU Nat} {u : URL}
    (hc : code ≠ "")
    (hhit : s.cache.Get ShortURLNamespace code = (some addr, c'))
    (hheap : s.heap.get? addr = some u)
    (hcnt : countShortCode s.store code = 0) :
    Service.GetLongURL s code =
      (.ok addr,
        { store := (s.store.map
              (fun r => if r.ShortCode == code then { r with Visits := r.Visits + 1 } else r)),
          heap := s.heap,
          cache := c',
          log := s.log ++ [StoreCall.incr code] }) := by
  unfold Service.GetLongURL
  rw [if_neg hc]
  simp only [hhit, hheap]
  unfold Repo.IncrementVisits
  simp [hcnt]

theorem Service.GetLongURL_miss_found {s : SysState} {code : String} {r : URLModel}
    (hc : code ≠ "")
    (hmiss : (s.cache.Get ShortURLNamespace code).1 = none)
    (hfind : s.store.find? (fun x => x.ShortCode == code) = some r) :
    Service.GetLongURL s code =
      (.ok s.heap.length,
        { store := (s.store.map
              (fun x => if x.ShortCode == code then { x with Visits := x.Visits + 1 } else x)),
          heap := s.heap ++ [URL.mk r.ID r.LongURL r.ShortCode r.CreatedAt r.Visits],
          cache := s.cache,
          log := s.log ++ [StoreCall.find code, StoreCall.incr code] }) := by
  have hget := NamespaceLRU.Get_of_fst_none hmiss
  unfold Service.GetLongURL
  rw [if_neg hc]
  simp only [hget]
  unfold Service.getLongURLMiss
  rw [Repo.FindByShortCode_of_found (s := { s with cache := s.cache }) hfind]
  dsimp only
  rw [Repo.IncrementVisits_of_cache_miss
    (s :=
      { s with
          heap := s.heap ++ [URL.mk r.ID r.LongURL r.ShortCode r.CreatedAt r.Visits],
          log := s.log ++ [StoreCall.find code] })
    hmiss]
  simp

theorem Service.GetLongURL_miss_absent {s : SysState} {code : String}
    (hc : code ≠ "")
    (hmiss : (s.cache.Get ShortURLNamespace code).1 = none)
    (hfind : s.store.find? (fun x => x.ShortCode == code) = none) :
    Service.GetLongURL s code =
      (.error ErrShortCodeNotFound,
        { s with log := s.log ++ [StoreCall.find code] }) := by
  have hget := NamespaceLRU.Get_of_fst_none hmiss
  unfold Service.GetLongURL
  rw [if_neg hc]
  simp only [hget]
  unfold Service.getLongURLMiss
  rw [Repo.FindByShortCode_of_missing (s := { s with cache := s.cache }) hfind]

theorem Service.UpdateLongURL_spec {s : SysState} {code newURL : String} {r : URLModel}
    (hc : code ≠ "") (hu : newURL ≠ "")
    (hfind : s.store.find? (fun x => x.ShortCode == code) = some r) :
    Service.UpdateLongURL s code newURL =
      (.ok s.heap.length,
        { store := (s.store.map
              (fun x => if x.ShortCode == code then { x with LongURL := newURL } else x)),
          heap := s.heap ++ [URL.mk r.ID newURL r.ShortCode r.CreatedAt r.Visits],
          cache := s.cache.Set ShortURLNamespace code s.heap.length,
          log := s.log ++ [StoreCall.find code, StoreCall.update code] }) := by
  have hcnt : countShortCode s.store code ≠ 0 := by
    have := countShortCode_pos_of_find? hfind
    omega
  unfold Service.UpdateLongURL
  rw [if_neg hc, if_neg hu]
  rw [Repo.FindByShortCode_of_found hfind]
  dsimp only
  rw [Repo.UpdateLongURL_of_found
    (s :=
      { s with
          heap := s.heap ++ [URL.mk r.ID r.LongURL r.ShortCode r.CreatedAt r.Visits],
          log := s.log ++ [StoreCall.find code] })
    newURL hcnt]
  dsimp only
  rw [List.get?_concat_length]
  dsimp only
  rw [set_append_singleton_length]
  simp

/-! Last helper lemmas before the claim theorems. -/

theorem NamespaceLRU.Get_fst_eq (c : NamespaceLRU α) (ns key : String) :
    (c.Get ns key).1
      = ((extractFirst (fun e => e.ck == compositeKey ns key) c.queue).1).map Entry.value := by
  rcases hq : extractFirst (fun x => x.ck == compositeKey ns key) c.queue with ⟨fst, rest⟩
  cases fst with
  | some e => rw [NamespaceLRU.Get_eq_of_extract_some hq]; rfl
  | none => rw [NamespaceLRU.Get_eq_of_extract_none hq]; rfl

theorem incrVisits_map_eq_self {l : List URLModel} {code : String}
    (h : countShortCode l code = 0) :
    l.map (fun r => if r.ShortCode == code then { r with Visits := r.Visits + 1 } else r) = l := by
  have hall : ∀ r ∈ l, (r.ShortCode == code) = false := by
    intro r hr
    by_contra hc
    simp only [Bool.not_eq_false] at hc
    have hmem : r ∈ l.filter (fun x => x.ShortCode == code) := List.mem_filter.mpr ⟨hr, hc⟩
    have : 0 < countShortCode l code := by
      simpa [countShortCode] using List.length_pos.mpr (List.ne_nil_of_mem hmem)
    omega
  induction l with
  | nil => rfl
  | cons x xs ih =>
    have hx := hall x (List.mem_cons_self x xs)
    simp only [List.map_cons, hx, if_false, Bool.false_eq_true]
    have hxs : countShortCode xs code = 0 := by
      simp only [countShortCode, List.filter_cons, hx] at h ⊢
      simpa using h
    rw [ih hxs (fun r hr => hall r (List.mem_cons_of_mem x hr))]

/-! Claim theorems. -/

/-- C1: starting from `NewNamespaceLRU` with capacity `cap ≥ 1`, `Size`
never exceeds `cap` over any sequence of `Set`, `Get`, `Invalidate`,
`InvalidateNamespace` and `Clear` calls; a `Set` of a brand-new composite
key performed when the cache is full evicts exactly one entry, namely the
back of the recency queue (the least-recently-used entry across all
namespaces); and a `Set` that overwrites an existing composite key never
evicts (the size is unchanged and every composite key present before is
still present). -/
theorem c1_capacity_and_lru_eviction {α : Type} (cap : Int) (hcap : 1 ≤ cap) :
    (∀ ops : List (CacheOp α), ((NewNamespaceLRU α cap).applyOps ops).Size ≤ cap)
    ∧ (∀ (c : NamespaceLRU α) (ns key : String) (v : α),
        c.capacity = cap → c.Size = cap →
        (extractFirst (fun e => e.ck == compositeKey ns key) c.queue).1 = none →
        (c.Set ns key v).queue = Entry.mk ns key v :: c.queue.dropLast
        ∧ (c.Set ns key v).Size = c.Size)
    ∧ (∀ (c : NamespaceLRU α) (ns key : String) (v : α) (e : Entry α),
        (extractFirst (fun e => e.ck == compositeKey ns key) c.queue).1 = some e →
        (c.Set ns key v).Size = c.Size
        ∧ ∀ x ∈ c.queue, ∃ y ∈ (c.Set ns key v).queue, y.ck = x.ck) := by
  refine ⟨?_, ?_, ?_⟩
  · intro ops
    have h0 : (NewNamespaceLRU α cap).Size ≤ (NewNamespaceLRU α cap).capacity := by
      simp only [NamespaceLRU.Size, NewNamespaceLRU, List.length_nil, Nat.cast_zero]
      omega
    exact (NamespaceLRU.applyOps_invariant hcap h0).2
  · intro c ns key v hcapc hsize hq0
    rcases hq : extractFirst (fun e => e.ck == compositeKey ns key) c.queue with ⟨fst, rest⟩
    rw [hq] at hq0
    simp only at hq0
    subst hq0
    have hsz : (c.queue.length : Int) = cap := hsize
    have hover : ((c.queue.length + 1 : Nat) : Int) > c.capacity := by
      rw [hcapc]
      push_cast
      omega
    rw [NamespaceLRU.Set_eq_of_extract_none_evict v hq hover]
    have hne : c.queue ≠ [] := by
      intro h
      rw [h] at hsz
      simp at hsz
      omega
    refine ⟨by simp [List.dropLast_cons_of_ne_nil hne], ?_⟩
    simp only [NamespaceLRU.Size, List.length_dropLast, List.length_cons]
    simp
  · intro c ns key v e hq0
    rcases hq : extractFirst (fun x => x.ck == compositeKey ns key) c.queue with ⟨fst, rest⟩
    rw [hq] at hq0
    simp only at hq0
    subst hq0
    have h1 : (extractFirst (fun x => x.ck == compositeKey ns key) c.queue).1 = some e := by
      rw [hq]
    obtain ⟨hpe, l1, l2, hl, hsnd, hl1⟩ := extractFirst_some h1
    rw [hq] at hsnd
    simp only at hsnd
    subst hsnd
    rw [NamespaceLRU.Set_eq_of_extract_some v hq]
    constructor
    · have hlen := extractFirst_length_of_some h1
      rw [hq] at hlen
      simp only at hlen
      simp only [NamespaceLRU.Size, List.length_cons]
      omega
    · intro x hx
      rw [hl] at hx
      rcases List.mem_append.mp hx with hx1 | hx2
      · exact ⟨x, List.mem_cons_of_mem _ (List.mem_append.mpr (Or.inl hx1)), rfl⟩
      · rcases List.mem_cons.mp hx2 with rfl | hx3
        · exact ⟨{ x with value := v }, List.mem_cons_self _ _, rfl⟩
        · exact ⟨x, List.mem_cons_of_mem _ (List.mem_append.mpr (Or.inr hx3)), rfl⟩

/-- C1 witness: a concrete capacity-2 run never exceeds size 2; a fresh
insert into a full cache evicts exactly the back entry; an overwrite keeps
the size. -/
theorem c1_capacity_and_lru_eviction_witness :
    (((NewNamespaceLRU Nat 2).applyOps
        [CacheOp.set "a" "x" 1, CacheOp.set "a" "y" 2, CacheOp.set "b" "z" 3]).Size ≤ 2)
    ∧ ((NamespaceLRU.mk 2 [Entry.mk "a" "y" 2, Entry.mk "a" "x" 1]).Set "b" "z" 3).queue
        = Entry.mk "b" "z" 3 :: [Entry.mk "a" "y" 2, Entry.mk "a" "x" 1].dropLast
    ∧ ((NamespaceLRU.mk 2 [Entry.mk "a" "y" 2, Entry.mk "a" "x" 1]).Set "a" "y" 9).Size
        = (NamespaceLRU.mk 2 [Entry.mk "a" "y" 2, Entry.mk "a" "x" 1]).Size :=
  ⟨(c1_capacity_and_lru_eviction 2 (by decide)).1 _,
   ((c1_capacity_and_lru_eviction 2 (by decide)).2.1 _ "b" "z" 3 rfl (by decide) (by decide)).1,
   ((c1_capacity_and_lru_eviction 2 (by decide)).2.2 _ "a" "y" 9 (Entry.mk "a" "y" 2)
      (by decide)).1⟩

/-- C7 counterexample: with a cache configured at capacity 0 (which
`NewNamespaceLRU` accepts, e.g. from a malformed `CACHE_SIZE` environment
value parsed by `strconv.Atoi` as 0), a fresh `Set` immediately evicts the
entry it just inserted, so the immediate `Get` misses — refuting the
round-trip property "for every configured capacity". -/
theorem c7_roundtrip_counterexample :
    (((NewNamespaceLRU Nat 0).Set "SHORT" "a" 5).Get "SHORT" "a").1 = none := by
  decide

/-- C7 amended: `Set(ns, k, v)` followed immediately by `Get(ns, k)`
returns `(v, true)` for every prior cache state, provided the configured
capacity is at least 1. -/
theorem c7_roundtrip_cap_pos {α : Type} (c : NamespaceLRU α) (ns key : String) (v : α)
    (hcap : 1 ≤ c.capacity) :
    ((c.Set ns key v).Get ns key).1 = some v := by
  rw [NamespaceLRU.Get_after_Set hcap rfl]

/-- C7 witness: the amended round-trip at capacity 1. -/
theorem c7_roundtrip_cap_pos_witness :
    ((((NewNamespaceLRU Nat 1).Set "SHORT" "a" 5).Get "SHORT" "a").1 = some 5) :=
  c7_roundtrip_cap_pos (NewNamespaceLRU Nat 1) "SHORT" "a" 5 (by decide)

/-- C9: the source's `Get` acquires the read (shared) side of the
`sync.RWMutex` (`c.mutex.RLock()`, lru.go line 62) even though it mutates
the recency queue via `MoveToFront` — witnessed here by a concrete state
that `Get` changes.  This contradicts the claim (and the spec's own
requirement) that every mutating operation, `Get` included, takes the
exclusive lock. -/
theorem c9_get_shared_lock_but_mutates :
    NamespaceLRU.getLock = LockKind.shared
    ∧ (exPairCache.Get "SHORT" "b").2 ≠ exPairCache := by
  exact ⟨rfl, by decide⟩

/-- C10: distinct (namespace, key) pairs with equal composite string
`ns ++ ":" ++ key` denote the same cache entry: a `Set` under one pair is
observable by `Get` under the other; pairs with different composite keys
do not alias (on an otherwise empty cache); and an aliasing overwrite
replaces only the value, keeping the stored namespace and key fields of
the first insertion. -/
theorem c10_composite_key_aliasing :
    (∀ (ns1 k1 ns2 k2 : String), (ns1, k1) ≠ (ns2, k2) →
       compositeKey ns1 k1 = compositeKey ns2 k2 →
       ∀ (c : NamespaceLRU Nat) (v : Nat), 1 ≤ c.capacity →
         ((c.Set ns1 k1 v).Get ns2 k2).1 = some v)
    ∧ (∀ (ns1 k1 ns2 k2 : String) (cap : Int) (v : Nat),
         compositeKey ns1 k1 ≠ compositeKey ns2 k2 →
         (((NewNamespaceLRU Nat cap).Set ns1 k1 v).Get ns2 k2).1 = none)
    ∧ (∀ (c : NamespaceLRU Nat) (ns2 k2 : String) (v : Nat) (e : Entry Nat)
         (rest : List (Entry Nat)),
         extractFirst (fun x => x.ck == compositeKey ns2 k2) c.queue = (some e, rest) →
         c.Set ns2 k2 v = { c with queue := Entry.mk e.ns e.key v :: rest }) := by
  refine ⟨?_, ?_, ?_⟩
  · intro ns1 k1 ns2 k2 _ hck c v hcap
    rw [NamespaceLRU.Get_after_Set hcap hck]
  · intro ns1 k1 ns2 k2 cap v hck
    have hne : ((Entry.mk ns1 k1 v).ck == compositeKey ns2 k2) = false := by
      simpa [Entry.ck_mk] using hck
    rcases hq : extractFirst (fun x => x.ck == compositeKey ns1 k1)
        (NewNamespaceLRU Nat cap).queue with ⟨fst, rest⟩
    have hq' : extractFirst (fun x => x.ck == compositeKey ns1 k1)
        (NewNamespaceLRU Nat cap).queue = (none, []) := rfl
    by_cases hover : (((NewNamespaceLRU Nat cap).queue.length + 1 : Nat) : Int)
        > (NewNamespaceLRU Nat cap).capacity
    · rw [NamespaceLRU.Set_eq_of_extract_none_evict v hq' hover]
      rfl
    · rw [NamespaceLRU.Set_eq_of_extract_none_fits v hq' hover]
      rw [NamespaceLRU.Get_fst_eq]
      simp only [NewNamespaceLRU]
      rw [extractFirst_cons_neg _ hne]
      rfl
  · intro c ns2 k2 v e rest hq
    rw [NamespaceLRU.Set_eq_of_extract_some v hq]

/-- C10 witness: `("a:b", "c")` and `("a", "b:c")` are distinct pairs with
the same composite key; setting under the first is read back under the
second; a non-aliasing pair misses; and the aliasing overwrite keeps the
stored namespace `a:b`. -/
theorem c10_composite_key_aliasing_witness :
    ((((NewNamespaceLRU Nat 5).Set "a:b" "c" 7).Get "a" "b:c").1 = some 7)
    ∧ ((((NewNamespaceLRU Nat 5).Set "a:b" "c" 7).Get "a" "z").1 = none)
    ∧ (((NamespaceLRU.mk 5 [Entry.mk "a:b" "c" 0]).Set "a" "b:c" 9)
        = { capacity := 5, queue := [Entry.mk "a:b" "c" 9] }) :=
  ⟨c10_composite_key_aliasing.1 "a:b" "c" "a" "b:c" (by decide) (by decide)
      (NewNamespaceLRU Nat 5) 7 (by decide),
   c10_composite_key_aliasing.2.1 "a:b" "c" "a" "z" 5 7 (by decide),
   c10_composite_key_aliasing.2.2 (NamespaceLRU.mk 5 [Entry.mk "a:b" "c" 0]) "a" "b:c" 9
      (Entry.mk "a:b" "c" 0) [] (by decide)⟩

/-- C4 counterexample: the cache `exAliasCache` holds an entry stored via
`Set("a:b", "c", 7)`.  That entry is retrievable under namespace `a` (as
`Get("a", "b:c")`, since the composite keys coincide), yet
`InvalidateNamespace("a")` does not remove it — it only matches the stored
namespace field `a:b` — so `Get("a", "b:c")` still succeeds afterwards,
refuting "removes every entry retrievable under namespace A". -/
theorem c4_namespace_isolation_counterexample :
    ((exAliasCache.InvalidateNamespace "a").Get "a" "b:c").1 = some 7 := by
  decide

/-- C4 amended: `InvalidateNamespace A` removes exactly the entries whose
stored namespace field equals `A`; when `A`, `B` and every stored
namespace and key are colon-free (so composite keys cannot alias) and
`A ≠ B`, then afterwards `Get(A, k)` misses for every `k` and `Get(B, k)`
returns the same result as before for every `k`. -/
theorem c4_namespace_isolation_colonfree {α : Type} {c : NamespaceLRU α} {A B : String}
    (hA : colonFree A) (hB : colonFree B) (hAB : A ≠ B)
    (hq : ∀ e ∈ c.queue, colonFree e.ns ∧ colonFree e.key) :
    ((c.InvalidateNamespace A).queue = c.queue.filter (fun e => e.ns != A))
    ∧ (∀ k : String, ((c.InvalidateNamespace A).Get A k).1 = none)
    ∧ (∀ k : String, ((c.InvalidateNamespace A).Get B k).1 = (c.Get B k).1) := by
  refine ⟨rfl, ?_, ?_⟩
  · intro k
    rw [NamespaceLRU.Get_fst_eq]
    have hnone : (extractFirst (fun e => e.ck == compositeKey A k)
        ((c.InvalidateNamespace A).queue)).1 = none := by
      rw [extractFirst_eq_none_iff]
      intro e he
      simp only [NamespaceLRU.InvalidateNamespace] at he
      obtain ⟨hel, hens⟩ := List.mem_filter.mp he
      by_contra hbeq
      simp only [Bool.not_eq_false] at hbeq
      have hck : compositeKey e.ns e.key = compositeKey A k := by
        have := eq_of_beq hbeq
        simpa [Entry.ck] using this
      have hnsA : e.ns = A := (compositeKey_inj (hq e hel).1 hA hck).1
      rw [hnsA] at hens
      simp at hens
    rw [hnone]
    rfl
  · intro k
    rw [NamespaceLRU.Get_fst_eq, NamespaceLRU.Get_fst_eq]
    simp only [NamespaceLRU.InvalidateNamespace]
    congr 1
    apply extractFirst_fst_filter
    intro e hel hbeq
    have hck : compositeKey e.ns e.key = compositeKey B k := by
      have := eq_of_beq hbeq
      simpa [Entry.ck] using this
    have hnsB : e.ns = B := (compositeKey_inj (hq e hel).1 hB hck).1
    rw [hnsB]
    simp [bne]
    exact fun h => hAB h.symm

/-- C4 witness: on a cache populated under the colon-free namespaces `a`
and `b`, invalidating `a` removes the `a` entry and leaves the `b` entry's
lookups unchanged. -/
theorem c4_namespace_isolation_colonfree_witness :
    (((exIsoCache.InvalidateNamespace "a").Get "a" "k1").1 = none)
    ∧ (((exIsoCache.InvalidateNamespace "a").Get "b" "k2").1 = (exIsoCache.Get "b" "k2").1) :=
  ⟨(c4_namespace_isolation_colonfree (B := "b") (by decide) (by decide) (by decide)
      (by decide)).2.1 "k1",
   (c4_namespace_isolation_colonfree (B := "b") (by decide) (by decide) (by decide)
      (by decide)).2.2 "k2"⟩

/-- C8: empty-input validation happens before any cache or store
operation: `CreateShortURL` with an empty long URL fails with
`ErrEmptyLongURL`, `GetLongURL` with an empty short code fails with
`ErrEmptyShortCode`, and `UpdateLongURL` fails with the respective error
(short code checked first); in every case the entire state — store, heap,
cache and the repository-invocation log — is returned unchanged. -/
theorem c8_validation_before_cache_and_store :
    (∀ (s : SysState) (customShort gen : String) (now : Nat),
       Service.CreateShortURL s "" customShort gen now = (.error ErrEmptyLongURL, s))
    ∧ (∀ s : SysState, Service.GetLongURL s "" = (.error ErrEmptyShortCode, s))
    ∧ (∀ (s : SysState) (newURL : String),
       Service.UpdateLongURL s "" newURL = (.error ErrEmptyShortCode, s))
    ∧ (∀ (s : SysState) (code : String), code ≠ "" →
       Service.UpdateLongURL s code "" = (.error ErrEmptyLongURL, s)) := by
  refine ⟨?_, ?_, ?_, ?_⟩
  · intro s customShort gen now
    simp [Service.CreateShortURL]
  · intro s
    simp [Service.GetLongURL]
  · intro s newURL
    simp [Service.UpdateLongURL]
  · intro s code hc
    simp [Service.UpdateLongURL, hc]

/-- C8 witness: updating with a non-empty short code and an empty long URL
is rejected with `ErrEmptyLongURL` and the state is untouched. -/
theorem c8_validation_before_cache_and_store_witness :
    Service.UpdateLongURL exEmptyState "abc123" "" = (.error ErrEmptyLongURL, exEmptyState) :=
  c8_validation_before_cache_and_store.2.2.2 exEmptyState "abc123" (by decide)

/-- C6 counterexample: incrementing the visit counter of a short code
absent from the store returns `ok` (the Go code only logs a warning when
`RowsAffected == 0` and returns nil; its own test
`TestSQLiteRepository_IncrementVisits_NonexistentShortCode` asserts
`NoError`), refuting "fails with an error". -/
theorem c6_increment_missing_counterexample :
    (Repo.IncrementVisits exEmptyState "missing").1 = Except.ok () := by
  decide

/-- C6 amended: for a shortCode absent from the store, `IncrementVisits`
succeeds (returns nil), leaving store, heap and cache untouched and only
logging the warning; an error is returned only on a storage fault, which
is outside this model. -/
theorem c6_increment_zero_rows_returns_ok {s : SysState} {code : String}
    (habs : countShortCode s.store code = 0) :
    Repo.IncrementVisits s code = (.ok (), { s with log := s.log ++ [StoreCall.incr code] }) := by
  unfold Repo.IncrementVisits
  dsimp only
  rw [incrVisits_map_eq_self habs]
  simp [habs]

/-- C6 witness: the amended statement at an empty store. -/
theorem c6_increment_zero_rows_returns_ok_witness :
    Repo.IncrementVisits exEmptyState "missing"
      = (.ok (), { exEmptyState with log := exEmptyState.log ++ [StoreCall.incr "missing"] }) :=
  c6_increment_zero_rows_returns_ok (by decide)

/-- C5 counterexample: in `exHitState` the cached snapshot for `abc123`
has `Visits = 5` and the store contains the row, so the increment side
effect succeeds; the hit-path lookup then returns the record at heap
address 0 whose `Visits` is 6, not the un-incremented snapshot 5 — the
repository's `IncrementVisits` refreshes the cached object, which is the
very `*URL` the service returns (the integration test asserts the same:
`retrievedURL.Visits == 1` right after an update). -/
theorem c5_hit_path_visit_count_counterexample :
    (Service.GetLongURL exHitState "abc123").1 = Except.ok 0
    ∧ (((Service.GetLongURL exHitState "abc123").2).heap.get? 0).map URL.Visits = some 6 := by
  constructor <;> decide

/-- C5 amended: on a cache hit, when the store still contains the
shortCode (so the increment affects a row), the returned record's
`Visits` equals the cached snapshot plus one, because
`SQLiteRepository.IncrementVisits` increments the cached `*URL` in place
and that pointer is what the service returns; only when the increment
affects zero rows does the caller see the unchanged snapshot. -/
theorem c5_hit_path_returned_visit_count {s : SysState} {code : String} {addr : Nat}
    (c' : NamespaceLRU Nat) {u : URL}
    (hc : code ≠ "")
    (hhit : s.cache.Get ShortURLNamespace code = (some addr, c'))
    (hheap : s.heap.get? addr = some u) :
    (Service.GetLongURL s code).1 = .ok addr
    ∧ ((Service.GetLongURL s code).2).heap.get? addr
        = some (if countShortCode s.store code = 0 then u
                else { u with Visits := u.Visits + 1 }) := by
  by_cases hcnt : countShortCode s.store code = 0
  · rw [Service.GetLongURL_hit_nocount hc hhit hheap hcnt]
    refine ⟨rfl, ?_⟩
    rw [if_pos hcnt]
    exact hheap
  · rw [Service.GetLongURL_hit_incr hc hhit hheap hcnt]
    refine ⟨rfl, ?_⟩
    rw [if_neg hcnt]
    rw [List.get?_eq_getElem?] at hheap ⊢
    simp only [List.getElem?_set_self', hheap]
    rfl

/-- C5 witness: the amended statement at `exHitState` (snapshot 5, row
present, returned count 6). -/
theorem c5_hit_path_returned_visit_count_witness :
    ((Service.GetLongURL exHitState "abc123").2).heap.get? 0
      = some (if countShortCode exHitState.store "abc123" = 0 then exCachedURL
              else { exCachedURL with Visits := exCachedURL.Visits + 1 }) :=
  (c5_hit_path_returned_visit_count exHitState.cache (by decide) (by decide)
    (by decide)).2

/-- C2 counterexample: `exState` has `abc123` in the store and an empty
cache.  After a successful miss-path lookup the cache is still empty (the
service never `Set`s the fetched record), and an immediately following
lookup invokes the store's `FindByShortCode` again (the invocation log
shows a second `find`), refuting the cache-aside population claim. -/
theorem c2_lookup_miss_counterexample :
    ((Service.GetLongURL exState "abc123").2).cache.queue = []
    ∧ ((Service.GetLongURL (Service.GetLongURL exState "abc123").2 "abc123").2).log
        = [StoreCall.find "abc123", StoreCall.incr "abc123",
           StoreCall.find "abc123", StoreCall.incr "abc123"] := by
  constructor <;> decide

/-- C2 amended: a successful miss-path lookup returns the fetched record
but leaves the cache entirely unchanged (nothing is populated), performs
exactly a `FindByShortCode` followed by an `IncrementVisits`, and an
immediately following lookup of the same code therefore misses again and
invokes `FindByShortCode` a second time.  The cache is populated only by
`CreateShortURL`, `UpdateLongURL`, and the repository's refresh of
already-cached entries. -/
theorem c2_miss_path_does_not_populate {s : SysState} {code : String} {r : URLModel}
    (hc : code ≠ "")
    (hmiss : (s.cache.Get ShortURLNamespace code).1 = none)
    (hfind : s.store.find? (fun x => x.ShortCode == code) = some r) :
    (Service.GetLongURL s code).1 = .ok s.heap.length
    ∧ ((Service.GetLongURL s code).2).cache = s.cache
    ∧ ((Service.GetLongURL s code).2).log = s.log ++ [StoreCall.find code, StoreCall.incr code]
    ∧ ((Service.GetLongURL (Service.GetLongURL s code).2 code).2).log
        = s.log ++ [StoreCall.find code, StoreCall.incr code,
                    StoreCall.find code, StoreCall.incr code] := by
  have h1 := Service.GetLongURL_miss_found hc hmiss hfind
  have hf : ∀ x : URLModel,
      ((if x.ShortCode == code then { x with Visits := x.Visits + 1 } else x) : URLModel).ShortCode
        = x.ShortCode := by
    intro x
    by_cases h : x.ShortCode == code <;> simp [h]
  have hr := List.find?_some hfind
  have hfind2 : (s.store.map
      (fun x => if x.ShortCode == code then { x with Visits := x.Visits + 1 } else x)).find?
        (fun x => x.ShortCode == code) = some { r with Visits := r.Visits + 1 } := by
    rw [find?_shortCode_map hf, hfind]
    simp [eq_of_beq hr]
  have h2 := Service.GetLongURL_miss_found
    (s :=
      { store := (s.store.map
            (fun x => if x.ShortCode == code then { x with Visits := x.Visits + 1 } else x)),
        heap := s.heap ++ [URL.mk r.ID r.LongURL r.ShortCode r.CreatedAt r.Visits],
        cache := s.cache,
        log := s.log ++ [StoreCall.find code, StoreCall.incr code] })
    hc hmiss hfind2
  refine ⟨by rw [h1], by rw [h1], by rw [h1], ?_⟩
  rw [h1, h2]
  simp

/-- C2 witness: the amended statement at `exState` — after the first
lookup the cache is exactly as before (empty). -/
theorem c2_miss_path_does_not_populate_witness :
    ((Service.GetLongURL exState "abc123").2).cache = exState.cache :=
  (c2_miss_path_does_not_populate (r := exRow) (by decide) (by decide) (by decide)).2.1

/-- C3: for a shortCode in the store (capacity at least 1, non-empty
inputs), a successful `UpdateLongURL` followed immediately by
`GetLongURL` returns a record whose `LongURL` is the new URL, served from
the cache: the lookup performs only the `IncrementVisits` side effect and
never invokes `FindByShortCode`. -/
theorem c3_write_through_lookup {s : SysState} {code newURL : String} {r : URLModel}
    (hcap : 1 ≤ s.cache.capacity) (hc : code ≠ "") (hu : newURL ≠ "")
    (hfind : s.store.find? (fun x => x.ShortCode == code) = some r) :
    (Service.UpdateLongURL s code newURL).1 = .ok s.heap.length
    ∧ (Service.GetLongURL (Service.UpdateLongURL s code newURL).2 code).1 = .ok s.heap.length
    ∧ ((Service.GetLongURL (Service.UpdateLongURL s code newURL).2 code).2.heap.get?
          s.heap.length).map URL.LongURL = some newURL
    ∧ (Service.GetLongURL (Service.UpdateLongURL s code newURL).2 code).2.log
        = (Service.UpdateLongURL s code newURL).2.log ++ [StoreCall.incr code] := by
  have hupd := Service.UpdateLongURL_spec hc hu hfind
  have hget : ((s.cache.Set ShortURLNamespace code s.heap.length).Get ShortURLNamespace code)
      = (some s.heap.length, s.cache.Set ShortURLNamespace code s.heap.length) :=
    NamespaceLRU.Get_after_Set hcap rfl
  have hheap1 : (s.heap ++ [URL.mk r.ID newURL r.ShortCode r.CreatedAt r.Visits]).get?
      s.heap.length = some (URL.mk r.ID newURL r.ShortCode r.CreatedAt r.Visits) :=
    List.get?_concat_length _ _
  have hcnt : countShortCode (s.store.map
      (fun x => if x.ShortCode == code then { x with LongURL := newURL } else x)) code ≠ 0 := by
    rw [countShortCode_map (fun x => by by_cases h : x.ShortCode == code <;> simp [h])]
    have := countShortCode_pos_of_find? hfind
    omega
  have hlook := Service.GetLongURL_hit_incr
    (s :=
      { store := (s.store.map
            (fun x => if x.ShortCode == code then { x with LongURL := newURL } else x)),
        heap := s.heap ++ [URL.mk r.ID newURL r.ShortCode r.CreatedAt r.Visits],
        cache := s.cache.Set ShortURLNamespace code s.heap.length,
        log := s.log ++ [StoreCall.find code, StoreCall.update code] })
    hc hget hheap1 hcnt
  refine ⟨by rw [hupd], by rw [hupd, hlook], ?_, by rw [hupd, hlook]⟩
  rw [hupd, hlook]
  rw [List.get?_eq_getElem?] at hheap1
  simp only [List.get?_eq_getElem?, List.getElem?_set_self', hheap1]
  rfl

/-- C3 witness: the write-through statement at `exState`: after updating
`abc123`, an immediate lookup serves the new URL from the cache. -/
theorem c3_write_through_lookup_witness :
    ((Service.GetLongURL (Service.UpdateLongURL exState "abc123" "https://new.example").2
        "abc123").2.heap.get? exState.heap.length).map URL.LongURL = some "https://new.example" :=
  (c3_write_through_lookup (r := exRow) (by decide) (by decide) (by decide) (by decide)).2.2.1
